import Mathlib

/-
  Verification of the UkNOw probability engine (src/uno.py, src/combinatorics.py).

  Python dicts and Counters are modelled as insertion-ordered association
  lists; Python exceptions are modelled by `Except` with a `PyError` naming
  the exception class; the randomness of `UnoDeck.draw` is modelled by an
  explicit index into the dict's key list (`random.choice` picks a uniformly
  random index).  Float arithmetic in `card_requirement_probability` is
  modelled over `ℚ`: every value the verified claims touch (0, 1, 2 and
  ratios of equal integers) is computed exactly by IEEE doubles as well.
-/

set_option autoImplicit false

namespace UkNOw

/-- Python exception classes that the translated code can raise. -/
inductive PyError
  | keyError
  | valueError
  | indexError
  | assertionError
  | unboundLocalError
  | zeroDivisionError
deriving DecidableEq

instance exceptDecEq {ε α : Type} [DecidableEq ε] [DecidableEq α] :
    DecidableEq (Except ε α) := fun a b =>
  match a, b with
  | .error x, .error y =>
    if h : x = y then .isTrue (by rw [h]) else .isFalse (fun hc => h (Except.error.inj hc))
  | .ok x, .ok y =>
    if h : x = y then .isTrue (by rw [h]) else .isFalse (fun hc => h (Except.ok.inj hc))
  | .error _, .ok _ => .isFalse (fun hc => Except.noConfusion hc)
  | .ok _, .error _ => .isFalse (fun hc => Except.noConfusion hc)

def exceptIsOk {ε α : Type} : Except ε α → Bool
  | .ok _ => true
  | .error _ => false

inductive CardColor | RED | YELLOW | GREEN | BLUE deriving DecidableEq

/-- Iteration order of `list(CardColor)`. -/
def CardColor.elems : List CardColor := [.RED, .YELLOW, .GREEN, .BLUE]

inductive CardAction | SKIP | DRAWTWO | DRAWFOUR | REVERSE deriving DecidableEq

/-- Iteration order of `list(CardAction)`. -/
def CardAction.elems : List CardAction := [.SKIP, .DRAWTWO, .DRAWFOUR, .REVERSE]

structure UnoCard where
  color : Option CardColor := none
  number : Option Nat := none
  action : Option CardAction := none
deriving DecidableEq

instance : Inhabited UnoCard := ⟨{}⟩

def wildCard : UnoCard := {}

/-! Association-list model of a Python `dict` / `Counter`.  Python dicts are
insertion ordered; assignment to an existing key keeps the original key
object in place, assignment to a fresh key appends. -/

section Alist

variable {α β : Type} [DecidableEq α]

def alistGet : List (α × β) → α → Option β
  | [], _ => none
  | (k, v) :: rest, a => if k = a then some v else alistGet rest a

def alistSet : List (α × β) → α → β → List (α × β)
  | [], a, v => [(a, v)]
  | (k, w) :: rest, a, v =>
    if k = a then (k, v) :: rest else (k, w) :: alistSet rest a v

def alistDel : List (α × β) → α → List (α × β)
  | [], _ => []
  | (k, w) :: rest, a => if k = a then rest else (k, w) :: alistDel rest a

def alistKeys (l : List (α × β)) : List α := l.map Prod.fst

def alistSum {γ : Type} (l : List (γ × Nat)) : Nat := (l.map Prod.snd).sum

end Alist

/-! ## UnoDeck (translation of class UnoDeck) -/

/-- The (card-type → remaining count) dict of an `UnoDeck`. -/
abbrev Deck := List (UnoCard × Nat)

namespace UnoDeck

def WILDCARD_COUNT : Nat := 4
def DRAWFOUR_COUNT : Nat := 4
def ZERO_COUNT : Nat := 1
def NONZERO_COUNT : Nat := 2
def ACTION_CARD_COUNT : Nat := 2

def PER_COLOR_COUNT : Nat := 25
def PER_ZERO_COUNT : Nat := ZERO_COUNT * CardColor.elems.length
def PER_NONZERO_COUNT : Nat := NONZERO_COUNT * CardColor.elems.length
def PER_ACTION_CARD_COUNT : Nat := ACTION_CARD_COUNT * CardColor.elems.length

/-- Translation of `UnoDeck.__init__`: the full 108 card composition. -/
def initDeck : Deck :=
  let d : Deck := alistSet [] {} WILDCARD_COUNT
  let d := alistSet d { action := some .DRAWFOUR } DRAWFOUR_COUNT
  CardColor.elems.foldl (fun d color =>
    let d := alistSet d { color := some color, number := some 0 } ZERO_COUNT
    let d := (List.range' 1 9).foldl
      (fun d n => alistSet d { color := some color, number := some n } NONZERO_COUNT) d
    CardAction.elems.foldl (fun d act =>
      if act ≠ CardAction.DRAWFOUR
      then alistSet d { color := some color, action := some act } ACTION_CARD_COUNT
      else d) d) d

/-- Translation of `UnoDeck.__len__`. -/
def len (d : Deck) : Nat := alistSum d

/-- Translation of `UnoDeck.count` (`dict.get(card, 0)`). -/
def count (d : Deck) (c : UnoCard) : Nat := (alistGet d c).getD 0

/-- `self.deck[card] -= 1; if not self.deck[card]: del self.deck[card]` —
the decrement step shared by `draw` and `remove`.  Only reached with the
entry present; present entries always hold a positive count in every deck
reachable from `initDeck`, so the `Nat` subtraction is exact. -/
def decrEntry (d : Deck) (c : UnoCard) : Deck :=
  match alistGet d c with
  | none => d
  | some n => if n - 1 = 0 then alistDel d c else alistSet d c (n - 1)

/-- Translation of `UnoDeck.remove`.  The failing read `self.deck[card]`
raises `KeyError` before any write, so the error carries the unchanged
deck. -/
def remove (d : Deck) (c : UnoCard) : Except (PyError × Deck) Deck :=
  match alistGet d c with
  | none => .error (.keyError, d)
  | some _ => .ok (decrEntry d c)

/-- Translation of `UnoDeck.draw`.  `random.choice(ks)` returns `ks[j]` for a
uniformly random index `j`; the index is made an explicit parameter. -/
def draw (d : Deck) (j : Nat) : Option UnoCard × Deck :=
  let ks := alistKeys d
  if ks.isEmpty then (none, d)
  else
    let card := ks.getD (j % ks.length) {}
    (some card, decrEntry d card)

def numKeys (d : Deck) : Nat := (alistKeys d).length

/-- Number of index choices (out of `numKeys d`) for which `draw` returns
card `c`: the numerator of the probability that a uniformly random
`random.choice` over the key list selects `c`. -/
def drawSelectCount (d : Deck) (c : UnoCard) : Nat :=
  (List.range (numKeys d)).countP (fun j => decide ((draw d j).fst = some c))

/-- Probability that `draw` selects card type `c` from deck `d`. -/
def drawSelectProb (d : Deck) (c : UnoCard) : ℚ :=
  (drawSelectCount d c : ℚ) / (numKeys d : ℚ)

/-- The card `random.choice` picks when the chosen index is `j`. -/
def drawnCard (d : Deck) (j : Nat) : UnoCard :=
  (alistKeys d).getD (j % (alistKeys d).length) {}

/-- Well-formedness of every deck reachable from `initDeck`: dict keys are
unique and every present entry has a positive remaining count (entries are
deleted as soon as they hit zero). -/
def WF (d : Deck) : Prop := (alistKeys d).Nodup ∧ ∀ p ∈ d, 0 < p.snd

instance (d : Deck) : Decidable (WF d) := by unfold WF; infer_instance

end UnoDeck

/-! ## CombinationCount (translation of src/combinatorics.py) -/

/-- The value stored at `self.binomial_coefficients[i][j]` after
`CombinationCount.__init__`: rows are filled in increasing `i` with
`[i][0] = [i][i] = 1`, interior cells by the Pascal recurrence from row
`i - 1`, and cells right of the diagonal left at the initial 0. -/
def binomial_coefficients : Nat → Nat → Nat
  | _, 0 => 1
  | 0, _ + 1 => 0
  | i + 1, j + 1 =>
    if j + 1 = i + 1 then 1
    else if j + 1 < i + 1 then
      binomial_coefficients i j + binomial_coefficients i (j + 1)
    else 0

/-- Translation of `CombinationCount(max_items).nCr(n, c)`: `ValueError` when
`c > n`, an out-of-range row index (`n > max_items`) raises `IndexError`,
otherwise the O(1) table lookup. -/
def nCr (max_items n c : Nat) : Except PyError Nat :=
  if c > n then .error .valueError
  else if max_items < n then .error .indexError
  else .ok (binomial_coefficients n c)

/-! ## CardCountsIndex (translation of class CardCountsIndex) -/

/-- `Counter[key]`: 0 for a missing key. -/
def counterGet {α : Type} [DecidableEq α] (m : List (α × Nat)) (a : α) : Nat :=
  (alistGet m a).getD 0

/-- `Counter[key] += 1`. -/
def counterInc {α : Type} [DecidableEq α] (m : List (α × Nat)) (a : α) : List (α × Nat) :=
  alistSet m a (counterGet m a + 1)

/-- `Counter.total()`. -/
def counterTotal {α : Type} (m : List (α × Nat)) : Nat := alistSum m

structure CardCountsIndex where
  total_counts : List (UnoCard × Nat)
  color_counts : List (CardColor × Nat)
  number_counts : List (Nat × Nat)
  action_counts : List (CardAction × Nat)

/-- Translation of `CardCountsIndex.__init__`: four empty Counters. -/
def CardCountsIndex.empty : CardCountsIndex := ⟨[], [], [], []⟩

/-- Translation of `CardCountsIndex.count`: always increments the exact-card
counter, and each attribute counter only when that attribute is present. -/
def CardCountsIndex.count (idx : CardCountsIndex) (card : UnoCard) : CardCountsIndex where
  total_counts := counterInc idx.total_counts card
  color_counts :=
    match card.color with
    | some c => counterInc idx.color_counts c
    | none => idx.color_counts
  number_counts :=
    match card.number with
    | some n => counterInc idx.number_counts n
    | none => idx.number_counts
  action_counts :=
    match card.action with
    | some a => counterInc idx.action_counts a
    | none => idx.action_counts

/-! ## GameStateTracker (translation of class GameStateTracker) -/

structure GameStateTracker where
  player_hand : List UnoCard
  other_players_card_counts : List Int
  unseen_cards : Deck
  seen_counter : CardCountsIndex
  ORIGINAL_CARD_COUNT : Nat
  unfulfilled_requirements_monitor : List (Option UnoCard)

instance : Inhabited GameStateTracker :=
  ⟨⟨[], [], [], CardCountsIndex.empty, 0, []⟩⟩

namespace GameStateTracker

/-- Translation of `GameStateTracker.__see_card`: the unseen-pool removal
runs strictly before the seen-index increment, so a failing removal
propagates with the tracker unchanged (the error carries the state at the
raise point). -/
def see_card (t : GameStateTracker) (card : UnoCard) :
    Except (PyError × GameStateTracker) GameStateTracker :=
  match UnoDeck.remove t.unseen_cards card with
  | .error (e, _) => .error (e, t)
  | .ok d => .ok { t with unseen_cards := d, seen_counter := t.seen_counter.count card }

/-- The `for card in self.player_hand: self.__see_card(card)` loop of
`GameStateTracker.__init__`. -/
def seeAll : GameStateTracker → List UnoCard →
    Except (PyError × GameStateTracker) GameStateTracker
  | t, [] => .ok t
  | t, c :: cs =>
    match t.see_card c with
    | .ok t2 => seeAll t2 cs
    | .error p => .error p

/-- Translation of `GameStateTracker.__init__`: seeds the unseen pool with
the full composition, records `ORIGINAL_CARD_COUNT = len(unseen)` before
seeing the hand, sees every hand card, then initialises the per-opponent
unfulfilled-requirement slots to `None`.  An exception escapes the
constructor with no object constructed. -/
def initState (player_hand : List UnoCard) (other_players_card_counts : List Int) :
    GameStateTracker :=
  { player_hand := player_hand
    other_players_card_counts := other_players_card_counts
    unseen_cards := UnoDeck.initDeck
    seen_counter := CardCountsIndex.empty
    ORIGINAL_CARD_COUNT := UnoDeck.len UnoDeck.initDeck
    unfulfilled_requirements_monitor := [] }

def init (player_hand : List UnoCard) (other_players_card_counts : List Int) :
    Except PyError GameStateTracker :=
  match seeAll (initState player_hand other_players_card_counts) player_hand with
  | .error (e, _) => .error e
  | .ok t2 =>
    .ok { t2 with unfulfilled_requirements_monitor :=
            other_players_card_counts.map (fun _ => none) }

/-- Translation of `ev_initial_play`. -/
def ev_initial_play (t : GameStateTracker) (card : UnoCard) :
    Except (PyError × GameStateTracker) GameStateTracker :=
  t.see_card card

/-- Translation of `ev_player_played`. -/
def ev_player_played (t : GameStateTracker) (card : UnoCard) :
    Except (PyError × GameStateTracker) GameStateTracker :=
  t.see_card card

/-- Translation of `ev_player_drew`: each card is seen and then appended to
the hand; an exception part-way keeps the earlier cards processed. -/
def ev_player_drew : GameStateTracker → List UnoCard →
    Except (PyError × GameStateTracker) GameStateTracker
  | t, [] => .ok t
  | t, c :: cs =>
    match t.see_card c with
    | .error p => .error p
    | .ok t2 => ev_player_drew { t2 with player_hand := t2.player_hand ++ [c] } cs

/-- Translation of `ev_other_player_played`: with a card, see it and then
decrement that opponent's hand size, asserting it stays non-negative (the
assert fires after the write); with no card, store `card` (that is, `None`)
in the unfulfilled-requirement slot. -/
def ev_other_player_played (t : GameStateTracker) (player : Nat) (card : Option UnoCard) :
    Except (PyError × GameStateTracker) GameStateTracker :=
  match card with
  | some c =>
    match t.see_card c with
    | .error p => .error p
    | .ok t2 =>
      match t2.other_players_card_counts.get? player with
      | none => .error (.indexError, t2)
      | some k =>
        if k - 1 < 0 then
          .error (.assertionError,
            { t2 with
              other_players_card_counts := t2.other_players_card_counts.set player (k - 1) })
        else
          .ok
            { t2 with
              other_players_card_counts := t2.other_players_card_counts.set player (k - 1) }
  | none =>
    if player < t.unfulfilled_requirements_monitor.length then
      .ok { t with unfulfilled_requirements_monitor :=
              t.unfulfilled_requirements_monitor.set player none }
    else .error (.indexError, t)

/-- Translation of `ev_other_player_drew`. -/
def ev_other_player_drew (t : GameStateTracker) (player : Nat) (num_cards : Int) :
    Except (PyError × GameStateTracker) GameStateTracker :=
  if num_cards ≤ 0 then .error (.valueError, t)
  else
    match t.other_players_card_counts.get? player with
    | none => .error (.indexError, t)
    | some k =>
      .ok { t with other_players_card_counts :=
              t.other_players_card_counts.set player (k + num_cards) }

/-- One in-game event, tagging which `ev_` method is called. -/
inductive Event
  | initialPlay (card : UnoCard)
  | playerDrew (cards : List UnoCard)
  | playerPlayed (card : UnoCard)
  | otherPlayerPlayed (player : Nat) (card : Option UnoCard)
  | otherPlayerDrew (player : Nat) (num_cards : Int)

def step (t : GameStateTracker) : Event →
    Except (PyError × GameStateTracker) GameStateTracker
  | .initialPlay c => t.ev_initial_play c
  | .playerDrew cs => ev_player_drew t cs
  | .playerPlayed c => t.ev_player_played c
  | .otherPlayerPlayed p c => t.ev_other_player_played p c
  | .otherPlayerDrew p n => t.ev_other_player_drew p n

def runEvents : List Event → GameStateTracker →
    Except (PyError × GameStateTracker) GameStateTracker
  | [], t => .ok t
  | e :: es, t =>
    match step t e with
    | .ok t2 => runEvents es t2
    | .error p => .error p

/-- The tracker state after a call: on an exception, the state at the raise
point (a Python exception does not roll back prior mutations). -/
def resultState (r : Except (PyError × GameStateTracker) GameStateTracker) :
    GameStateTracker :=
  match r with
  | .ok t => t
  | .error (_, t) => t

/-- A state produced by the public constructor followed by some sequence of
non-raising event-method calls. -/
def Reachable (t : GameStateTracker) : Prop :=
  ∃ hand counts t0 evs, init hand counts = .ok t0 ∧ runEvents evs t0 = .ok t

/-- Internal consistency of a tracker: well-formed unseen pool and
`seen_index.total + |unseen_pool| == originalTotal == 108`. -/
def Inv (t : GameStateTracker) : Prop :=
  UnoDeck.WF t.unseen_cards ∧
  counterTotal t.seen_counter.total_counts + UnoDeck.len t.unseen_cards =
    t.ORIGINAL_CARD_COUNT ∧
  t.ORIGINAL_CARD_COUNT = 108

/-- Every per-opponent unfulfilled-requirement slot is `None`. -/
def monitorAllNone (t : GameStateTracker) : Prop :=
  t.unfulfilled_requirements_monitor.all Option.isNone = true

/-- The read `self.other_players_card_counts[next_player]` inside
`card_requirement_probability`.  A negative count would be passed on to a
negative Python list index (which wraps instead of raising); hand counts
are never negative in states the claims quantify over, so a negative count
is reported as an index error instead of modelling the wrap. -/
def getHandCount (t : GameStateTracker) (next_player : Nat) : Except PyError Nat :=
  match t.other_players_card_counts.get? next_player with
  | none => .error .indexError
  | some k => if k < 0 then .error .indexError else .ok k.toNat

/-- The color branch of `card_requirement_probability` (lines 186-201):
returns `player_hands_without_color_frac` together with
`player_hand_universe`, which is `none` when the branch is skipped and the
local variable is left unbound. -/
def colorStep (t : GameStateTracker) (card : UnoCard) (next_player : Nat) :
    Except PyError (ℚ × Option Nat) :=
  match card.color with
  | none => .ok (0, none)
  | some col =>
    let remaining_color_unseen :=
      UnoDeck.PER_COLOR_COUNT - counterGet t.seen_counter.color_counts col
    match getHandCount t next_player with
    | .error e => .error e
    | .ok k =>
      match nCr t.ORIGINAL_CARD_COUNT (UnoDeck.len t.unseen_cards) k with
      | .error e => .error e
      | .ok player_hand_universe =>
        match nCr t.ORIGINAL_CARD_COUNT
            (UnoDeck.len t.unseen_cards - remaining_color_unseen) k with
        | .error e => .error e
        | .ok player_hands_without_color =>
          if player_hand_universe = 0 then .error .zeroDivisionError
          else .ok ((player_hands_without_color : ℚ) / (player_hand_universe : ℚ),
            some player_hand_universe)

/-- The number branch of `card_requirement_probability` (lines 206-218):
the number population is 8 for 1..9 and 4 for 0 (`if card.number` is falsy
for 0); `player_hand_universe` is only bound by the color branch, so using
it here with the color branch skipped raises `UnboundLocalError` — after
the without-number table lookup, which Python evaluates first. -/
def numberStep (t : GameStateTracker) (card : UnoCard) (next_player : Nat)
    (player_hand_universe : Option Nat) : Except PyError ℚ :=
  match card.number with
  | none => .ok 0
  | some num =>
    let remaining_number_unseen :=
      (if num ≠ 0 then UnoDeck.PER_NONZERO_COUNT else UnoDeck.PER_ZERO_COUNT) -
        counterGet t.seen_counter.number_counts num
    match getHandCount t next_player with
    | .error e => .error e
    | .ok k =>
      match nCr t.ORIGINAL_CARD_COUNT
          (UnoDeck.len t.unseen_cards - remaining_number_unseen) k with
      | .error e => .error e
      | .ok player_hands_without_number =>
        match player_hand_universe with
        | none => .error .unboundLocalError
        | some u =>
          if u = 0 then .error .zeroDivisionError
          else .ok ((player_hands_without_number : ℚ) / (u : ℚ))

/-- Translation of `GameStateTracker.card_requirement_probability`: assert
the partition invariant, run the color branch, assert the color fraction in
`[0,1]`, run the number branch, assert likewise, and return
`(1 - without_color_frac) + (1 - without_number_frac)`. -/
def card_requirement_probability (t : GameStateTracker) (card : UnoCard)
    (next_player : Nat) : Except PyError ℚ :=
  if counterTotal t.seen_counter.total_counts + UnoDeck.len t.unseen_cards ≠
      t.ORIGINAL_CARD_COUNT then .error .assertionError
  else
    match colorStep t card next_player with
    | .error e => .error e
    | .ok (player_hands_without_color_frac, player_hand_universe) =>
      if ¬ (0 ≤ player_hands_without_color_frac ∧ player_hands_without_color_frac ≤ 1)
      then .error .assertionError
      else
        match numberStep t card next_player player_hand_universe with
        | .error e => .error e
        | .ok player_hands_without_number_frac =>
          if ¬ (0 ≤ player_hands_without_number_frac ∧
              player_hands_without_number_frac ≤ 1)
          then .error .assertionError
          else
            .ok ((1 - player_hands_without_color_frac) +
              (1 - player_hands_without_number_frac))

/-- Translation of `GameStateTracker.count_deck`. -/
def count_deck (t : GameStateTracker) : Int :=
  (UnoDeck.len t.unseen_cards : Int) - t.other_players_card_counts.sum

end GameStateTracker

/-! ## Concrete states used by the claim witnesses -/

/-- The tracker built by `GameStateTracker([], [])`. -/
def tEmpty : GameStateTracker :=
  match GameStateTracker.init [] [] with
  | .ok t => t
  | .error _ => default

/-- The tracker built by `GameStateTracker([], [7])`. -/
def tOne : GameStateTracker :=
  match GameStateTracker.init [] [7] with
  | .ok t => t
  | .error _ => default

/-- The tracker built by `GameStateTracker([], [0])`. -/
def tZero : GameStateTracker :=
  match GameStateTracker.init [] [0] with
  | .ok t => t
  | .error _ => default

/-- The tracker built by `GameStateTracker([], [7, 7, 7])`. -/
def tThree : GameStateTracker :=
  match GameStateTracker.init [] [7, 7, 7] with
  | .ok t => t
  | .error _ => default

/-- A 31-card hand: all 25 RED cards plus both 5s of each other color. -/
def c4Hand : List UnoCard :=
  [{ color := some .RED, number := some 0 },
   { color := some .RED, number := some 1 }, { color := some .RED, number := some 1 },
   { color := some .RED, number := some 2 }, { color := some .RED, number := some 2 },
   { color := some .RED, number := some 3 }, { color := some .RED, number := some 3 },
   { color := some .RED, number := some 4 }, { color := some .RED, number := some 4 },
   { color := some .RED, number := some 5 }, { color := some .RED, number := some 5 },
   { color := some .RED, number := some 6 }, { color := some .RED, number := some 6 },
   { color := some .RED, number := some 7 }, { color := some .RED, number := some 7 },
   { color := some .RED, number := some 8 }, { color := some .RED, number := some 8 },
   { color := some .RED, number := some 9 }, { color := some .RED, number := some 9 },
   { color := some .RED, action := some .SKIP }, { color := some .RED, action := some .SKIP },
   { color := some .RED, action := some .DRAWTWO }, { color := some .RED, action := some .DRAWTWO },
   { color := some .RED, action := some .REVERSE }, { color := some .RED, action := some .REVERSE },
   { color := some .YELLOW, number := some 5 }, { color := some .YELLOW, number := some 5 },
   { color := some .GREEN, number := some 5 }, { color := some .GREEN, number := some 5 },
   { color := some .BLUE, number := some 5 }, { color := some .BLUE, number := some 5 }]

/-- The tracker built by `GameStateTracker(c4Hand, [7])`: every RED card and
every 5 is seen, so a RED 5 candidate play is impossible to answer. -/
def c4Tracker : GameStateTracker :=
  match GameStateTracker.init c4Hand [7] with
  | .ok t => t
  | .error _ => default

theorem binomial_coefficients_eq_choose (i j : Nat) :
    binomial_coefficients i j = Nat.choose i j := by
  induction i generalizing j with
  | zero =>
    cases j with
    | zero => rfl
    | succ j => rfl
  | succ i ih =>
    cases j with
    | zero => simp [binomial_coefficients]
    | succ j =>
      by_cases hji : j + 1 = i + 1
      · have : j = i := by omega
        subst this
        simp [binomial_coefficients]
      · by_cases hlt : j + 1 < i + 1
        · simp only [binomial_coefficients, if_neg hji, if_pos hlt]
          rw [ih j, ih (j + 1), Nat.choose_succ_succ]
        · simp only [binomial_coefficients, if_neg hji, if_neg hlt]
          have : i + 1 < j + 1 := by omega
          rw [Nat.choose_eq_zero_of_lt this]

/-! ## Association-list lemmas -/

section AlistLemmas

variable {α β : Type} [DecidableEq α]

theorem alistGet_eq_none_of_not_mem {l : List (α × β)} {a : α}
    (h : a ∉ alistKeys l) : alistGet l a = none := by
  induction l with
  | nil => rfl
  | cons q rest ih =>
    obtain ⟨k, v⟩ := q
    simp only [alistKeys, List.map_cons, List.mem_cons, not_or] at h
    have hka : ¬ k = a := fun hk => h.1 hk.symm
    simp only [alistGet, if_neg hka]
    exact ih h.2

theorem not_mem_keys_of_alistGet_eq_none {l : List (α × β)} {a : α}
    (h : alistGet l a = none) : a ∉ alistKeys l := by
  induction l with
  | nil => simp [alistKeys]
  | cons q rest ih =>
    obtain ⟨k, v⟩ := q
    by_cases hka : k = a
    · rw [alistGet, if_pos hka] at h
      exact absurd h (by simp)
    · rw [alistGet, if_neg hka] at h
      simp only [alistKeys, List.map_cons, List.mem_cons, not_or]
      exact ⟨fun hak => hka hak.symm, ih h⟩

theorem mem_of_alistGet_eq_some {l : List (α × β)} {a : α} {v : β}
    (h : alistGet l a = some v) : (a, v) ∈ l := by
  induction l with
  | nil => simp [alistGet] at h
  | cons q rest ih =>
    obtain ⟨k, w⟩ := q
    by_cases hka : k = a
    · rw [alistGet, if_pos hka] at h
      injection h with hwv
      subst hwv
      subst hka
      exact List.mem_cons_self _ _
    · rw [alistGet, if_neg hka] at h
      exact List.mem_cons_of_mem _ (ih h)

theorem alistGet_eq_some_of_mem_keys {l : List (α × β)} {a : α}
    (h : a ∈ alistKeys l) : ∃ v, alistGet l a = some v := by
  cases hget : alistGet l a with
  | none => exact absurd h (not_mem_keys_of_alistGet_eq_none hget)
  | some v => exact ⟨v, rfl⟩

theorem alistSum_set_none {l : List (α × Nat)} {a : α} {v : Nat}
    (h : alistGet l a = none) : alistSum (alistSet l a v) = alistSum l + v := by
  induction l with
  | nil => simp [alistSet, alistSum]
  | cons q rest ih =>
    obtain ⟨k, w⟩ := q
    by_cases hka : k = a
    · rw [alistGet, if_pos hka] at h
      exact absurd h (by simp)
    · rw [alistGet, if_neg hka] at h
      rw [alistSet, if_neg hka]
      have := ih h
      simp only [alistSum, List.map_cons, List.sum_cons] at this ⊢
      omega

theorem alistSum_set_some {l : List (α × Nat)} {a : α} {w v : Nat}
    (h : alistGet l a = some w) : alistSum (alistSet l a v) + w = alistSum l + v := by
  induction l with
  | nil => simp [alistGet] at h
  | cons q rest ih =>
    obtain ⟨k, u⟩ := q
    by_cases hka : k = a
    · rw [alistGet, if_pos hka] at h
      injection h with huw
      subst huw
      rw [alistSet, if_pos hka]
      simp only [alistSum, List.map_cons, List.sum_cons]
      omega
    · rw [alistGet, if_neg hka] at h
      rw [alistSet, if_neg hka]
      have := ih h
      simp only [alistSum, List.map_cons, List.sum_cons] at this ⊢
      omega

theorem alistSum_del_some {l : List (α × Nat)} {a : α} {w : Nat}
    (h : alistGet l a = some w) : alistSum (alistDel l a) + w = alistSum l := by
  induction l with
  | nil => simp [alistGet] at h
  | cons q rest ih =>
    obtain ⟨k, u⟩ := q
    by_cases hka : k = a
    · rw [alistGet, if_pos hka] at h
      injection h with huw
      subst huw
      rw [alistDel, if_pos hka]
      simp only [alistSum, List.map_cons, List.sum_cons]
      omega
    · rw [alistGet, if_neg hka] at h
      rw [alistDel, if_neg hka]
      have := ih h
      simp only [alistSum, List.map_cons, List.sum_cons] at this ⊢
      omega

theorem alistGet_set_self {l : List (α × β)} {a : α} {v : β} :
    alistGet (alistSet l a v) a = some v := by
  induction l with
  | nil => simp [alistSet, alistGet]
  | cons q rest ih =>
    obtain ⟨k, w⟩ := q
    by_cases hka : k = a
    · rw [alistSet, if_pos hka, alistGet, if_pos hka]
    · rw [alistSet, if_neg hka, alistGet, if_neg hka]
      exact ih

theorem alistGet_set_ne {l : List (α × β)} {a b : α} {v : β} (h : b ≠ a) :
    alistGet (alistSet l a v) b = alistGet l b := by
  induction l with
  | nil =>
    have hab : ¬ a = b := fun hab => h hab.symm
    simp [alistSet, alistGet, hab]
  | cons q rest ih =>
    obtain ⟨k, w⟩ := q
    by_cases hka : k = a
    · have hkb : ¬ k = b := fun hkb => h (hkb ▸ hka ▸ rfl)
      rw [alistSet, if_pos hka, alistGet, if_neg hkb, alistGet, if_neg hkb]
    · by_cases hkb : k = b
      · rw [alistSet, if_neg hka, alistGet, if_pos hkb, alistGet, if_pos hkb]
      · rw [alistSet, if_neg hka, alistGet, if_neg hkb, alistGet, if_neg hkb]
        exact ih

theorem alistKeys_set_some {l : List (α × β)} {a : α} {v w : β}
    (h : alistGet l a = some w) : alistKeys (alistSet l a v) = alistKeys l := by
  induction l with
  | nil => simp [alistGet] at h
  | cons q rest ih =>
    obtain ⟨k, u⟩ := q
    by_cases hka : k = a
    · rw [alistSet, if_pos hka]
      simp [alistKeys]
    · rw [alistGet, if_neg hka] at h
      rw [alistSet, if_neg hka]
      simp only [alistKeys, List.map_cons, List.cons.injEq, true_and]
      exact ih h

theorem alistKeys_set_none {l : List (α × β)} {a : α} {v : β}
    (h : alistGet l a = none) : alistKeys (alistSet l a v) = alistKeys l ++ [a] := by
  induction l with
  | nil => simp [alistSet, alistKeys]
  | cons q rest ih =>
    obtain ⟨k, u⟩ := q
    by_cases hka : k = a
    · rw [alistGet, if_pos hka] at h
      exact absurd h (by simp)
    · rw [alistGet, if_neg hka] at h
      rw [alistSet, if_neg hka]
      simp only [alistKeys, List.map_cons, List.cons_append, List.cons.injEq, true_and]
      exact ih h

theorem alistKeys_del_sublist (l : List (α × β)) (a : α) :
    List.Sublist (alistKeys (alistDel l a)) (alistKeys l) := by
  induction l with
  | nil => simp [alistDel, alistKeys]
  | cons q rest ih =>
    obtain ⟨k, w⟩ := q
    by_cases hka : k = a
    · rw [alistDel, if_pos hka]
      exact List.sublist_cons_self _ _
    · rw [alistDel, if_neg hka]
      exact List.Sublist.cons₂ _ ih

theorem alistGet_del_self {l : List (α × β)} {a : α}
    (hnd : (alistKeys l).Nodup) : alistGet (alistDel l a) a = none := by
  induction l with
  | nil => rfl
  | cons q rest ih =>
    obtain ⟨k, w⟩ := q
    simp only [alistKeys, List.map_cons, List.nodup_cons] at hnd
    by_cases hka : k = a
    · rw [alistDel, if_pos hka]
      subst hka
      exact alistGet_eq_none_of_not_mem hnd.1
    · rw [alistDel, if_neg hka, alistGet, if_neg hka]
      exact ih hnd.2

theorem alistGet_del_ne {l : List (α × β)} {a b : α} (h : b ≠ a) :
    alistGet (alistDel l a) b = alistGet l b := by
  induction l with
  | nil => rfl
  | cons q rest ih =>
    obtain ⟨k, w⟩ := q
    by_cases hka : k = a
    · have hkb : ¬ k = b := fun hkb => h (hkb ▸ hka ▸ rfl)
      rw [alistDel, if_pos hka, alistGet, if_neg hkb]
    · by_cases hkb : k = b
      · rw [alistDel, if_neg hka, alistGet, if_pos hkb, alistGet, if_pos hkb]
      · rw [alistDel, if_neg hka, alistGet, if_neg hkb, alistGet, if_neg hkb]
        exact ih

theorem mem_alistSet {l : List (α × β)} {a : α} {v : β} {p : α × β}
    (h : p ∈ alistSet l a v) : p ∈ l ∨ p.snd = v := by
  induction l with
  | nil =>
    simp only [alistSet, List.mem_singleton] at h
    subst h
    exact Or.inr rfl
  | cons q rest ih =>
    obtain ⟨k, w⟩ := q
    by_cases hka : k = a
    · rw [alistSet, if_pos hka] at h
      rcases List.mem_cons.1 h with h | h
      · subst h
        exact Or.inr rfl
      · exact Or.inl (List.mem_cons_of_mem _ h)
    · rw [alistSet, if_neg hka] at h
      rcases List.mem_cons.1 h with h | h
      · exact Or.inl (List.mem_cons.2 (Or.inl h))
      · rcases ih h with h | h
        · exact Or.inl (List.mem_cons_of_mem _ h)
        · exact Or.inr h

theorem mem_alistDel {l : List (α × β)} {a : α} {p : α × β}
    (h : p ∈ alistDel l a) : p ∈ l := by
  induction l with
  | nil => simp [alistDel] at h
  | cons q rest ih =>
    obtain ⟨k, w⟩ := q
    by_cases hka : k = a
    · rw [alistDel, if_pos hka] at h
      exact List.mem_cons_of_mem _ h
    · rw [alistDel, if_neg hka] at h
      rcases List.mem_cons.1 h with h | h
      · exact List.mem_cons.2 (Or.inl h)
      · exact List.mem_cons_of_mem _ (ih h)

theorem nodup_keys_alistSet {l : List (α × β)} {a : α} {v : β}
    (h : (alistKeys l).Nodup) : (alistKeys (alistSet l a v)).Nodup := by
  cases hget : alistGet l a with
  | some w => rw [alistKeys_set_some hget]; exact h
  | none =>
    rw [alistKeys_set_none hget]
    rw [List.nodup_append]
    refine ⟨h, List.nodup_singleton a, ?_⟩
    intro x hx hxa
    rw [List.mem_singleton] at hxa
    subst hxa
    exact not_mem_keys_of_alistGet_eq_none hget hx

theorem nodup_keys_alistDel {l : List (α × β)} {a : α}
    (h : (alistKeys l).Nodup) : (alistKeys (alistDel l a)).Nodup :=
  List.Nodup.sublist (alistKeys_del_sublist l a) h

end AlistLemmas

/-! ## UnoDeck lemmas -/

namespace UnoDeck

theorem initDeck_wf : WF initDeck := by decide

theorem get_none_of_count_eq_zero {d : Deck} {c : UnoCard} (hwf : WF d)
    (h : count d c = 0) : alistGet d c = none := by
  cases hget : alistGet d c with
  | none => rfl
  | some n =>
    have hpos := hwf.2 (c, n) (mem_of_alistGet_eq_some hget)
    unfold count at h
    rw [hget] at h
    simp only [Option.getD_some] at h
    omega

theorem decrEntry_spec {d : Deck} {c : UnoCard} {n : Nat} (hwf : WF d)
    (hget : alistGet d c = some n) :
    WF (decrEntry d c) ∧
    len (decrEntry d c) + 1 = len d ∧
    count (decrEntry d c) c + 1 = count d c ∧
    (∀ b, b ≠ c → count (decrEntry d c) b = count d b) ∧
    (n = 1 → alistGet (decrEntry d c) c = none) := by
  have hpos : 0 < n := hwf.2 (c, n) (mem_of_alistGet_eq_some hget)
  by_cases h1 : n - 1 = 0
  · have hde : decrEntry d c = alistDel d c := by
      unfold decrEntry
      rw [hget]
      exact if_pos h1
    rw [hde]
    refine ⟨⟨nodup_keys_alistDel hwf.1, fun p hp => hwf.2 p (mem_alistDel hp)⟩, ?_, ?_, ?_, ?_⟩
    · exact (by have := alistSum_del_some hget; unfold len alistSum at *; omega)
    · unfold count
      rw [alistGet_del_self hwf.1, hget]
      simp only [Option.getD_none, Option.getD_some]
      omega
    · intro b hb
      unfold count
      rw [alistGet_del_ne hb]
    · intro _
      exact alistGet_del_self hwf.1
  · have hde : decrEntry d c = alistSet d c (n - 1) := by
      unfold decrEntry
      rw [hget]
      exact if_neg h1
    rw [hde]
    refine ⟨⟨nodup_keys_alistSet hwf.1, ?_⟩, ?_, ?_, ?_, ?_⟩
    · intro p hp
      rcases mem_alistSet hp with hp | hp
      · exact hwf.2 p hp
      · omega
    · exact (by have := alistSum_set_some (v := n - 1) hget; unfold len alistSum at *; omega)
    · unfold count
      rw [alistGet_set_self, hget]
      simp only [Option.getD_some]
      omega
    · intro b hb
      unfold count
      rw [alistGet_set_ne hb]
    · intro hn1
      omega

theorem remove_ok {d : Deck} {c : UnoCard} {n : Nat} (hget : alistGet d c = some n) :
    remove d c = .ok (decrEntry d c) := by
  unfold remove
  rw [hget]

theorem remove_err {d : Deck} {c : UnoCard} (hget : alistGet d c = none) :
    remove d c = .error (.keyError, d) := by
  unfold remove
  rw [hget]

theorem keys_length_pos {d : Deck} (hne : d ≠ []) : 0 < (alistKeys d).length := by
  cases d with
  | nil => exact absurd rfl hne
  | cons q rest => simp [alistKeys]

theorem draw_eq_of_ne_nil {d : Deck} (hne : d ≠ []) (j : Nat) :
    draw d j = (some (drawnCard d j), decrEntry d (drawnCard d j)) := by
  have hlen := keys_length_pos hne
  have hemp : (alistKeys d).isEmpty = false := by
    cases hk : alistKeys d with
    | nil => rw [hk] at hlen; simp at hlen
    | cons x xs => rfl
  unfold draw drawnCard
  rw [if_neg (by simp [hemp])]

theorem drawnCard_mem {d : Deck} (hne : d ≠ []) (j : Nat) :
    drawnCard d j ∈ alistKeys d := by
  have hlen := keys_length_pos hne
  have hlt : j % (alistKeys d).length < (alistKeys d).length := Nat.mod_lt _ hlen
  unfold drawnCard
  rw [List.getD_eq_getElem _ _ hlt]
  exact List.getElem_mem hlt

theorem countP_range_getD {γ : Type} [DecidableEq γ] (dflt c : γ) (ks : List γ) :
    (List.range ks.length).countP (fun j => decide (ks.getD j dflt = c)) = ks.count c := by
  induction ks with
  | nil => simp
  | cons a ks ih =>
    rw [List.length_cons, List.range_succ_eq_map, List.countP_cons, List.countP_map]
    have h1 : ((fun j => decide ((a :: ks).getD j dflt = c)) ∘ Nat.succ) =
        fun j => decide (ks.getD j dflt = c) := by
      funext j
      simp [List.getD_cons_succ]
    rw [h1, ih, List.count_cons]
    by_cases hac : a = c <;> simp [hac, List.getD_cons_zero]

theorem drawSelectCount_eq_one {d : Deck} {c : UnoCard} (hwf : WF d)
    (hmem : c ∈ alistKeys d) : drawSelectCount d c = 1 := by
  have hne : d ≠ [] := by
    cases d with
    | nil => simp [alistKeys] at hmem
    | cons q rest => simp
  unfold drawSelectCount numKeys
  rw [List.countP_congr (q := fun j => decide ((alistKeys d).getD j {} = c)) ?_]
  · rw [countP_range_getD]
    exact List.count_eq_one_of_mem hwf.1 hmem
  · intro j hj
    rw [List.mem_range] at hj
    rw [draw_eq_of_ne_nil hne]
    unfold drawnCard
    rw [Nat.mod_eq_of_lt hj]
    simp

end UnoDeck

/-! ## Claims about UnoDeck and CombinationCount -/

/-- C7: a freshly constructed full CardMultiset (`UnoDeck.__init__`) has
`len() == 108`, with per-type counts: 4 plain wildcards, 4 draw-four
wildcards, and per color one 0 card, two of each number 1..9, two of each
of the 3 non-draw-four actions — 25 cards of each of the 4 colors. -/
theorem c7_full_deck_composition :
    UnoDeck.len UnoDeck.initDeck = 108 ∧
    UnoDeck.count UnoDeck.initDeck wildCard = 4 ∧
    UnoDeck.count UnoDeck.initDeck { action := some .DRAWFOUR } = 4 ∧
    (∀ col ∈ CardColor.elems,
      UnoDeck.count UnoDeck.initDeck { color := some col, number := some 0 } = 1 ∧
      (∀ n ∈ List.range' 1 9,
        UnoDeck.count UnoDeck.initDeck { color := some col, number := some n } = 2) ∧
      (∀ act ∈ CardAction.elems, act ≠ .DRAWFOUR →
        UnoDeck.count UnoDeck.initDeck { color := some col, action := some act } = 2) ∧
      alistSum (UnoDeck.initDeck.filter (fun p => decide (p.fst.color = some col))) = 25) := by
  decide

/-- C8: the precomputed table satisfies `nCr(n,0) = nCr(n,n) = 1`,
`nCr(n,k) = nCr(n,n-k)`, the Pascal recurrence
`nCr(n,k) = nCr(n-1,k-1) + nCr(n-1,k)` for `0 < k < n`, and `nCr(n,r)`
fails with the DomainError (`ValueError`) whenever `r > n`. -/
theorem c8_binomial_table_identities (max_items n k r : Nat)
    (hn : n ≤ max_items) (hk : k ≤ n) (hr : n < r) :
    nCr max_items n 0 = .ok 1 ∧
    nCr max_items n n = .ok 1 ∧
    nCr max_items n k = nCr max_items n (n - k) ∧
    (0 < k → k < n →
      nCr max_items (n - 1) (k - 1) = .ok (binomial_coefficients (n - 1) (k - 1)) ∧
      nCr max_items (n - 1) k = .ok (binomial_coefficients (n - 1) k) ∧
      nCr max_items n k =
        .ok (binomial_coefficients (n - 1) (k - 1) + binomial_coefficients (n - 1) k)) ∧
    nCr max_items n r = .error .valueError := by
  have hB := binomial_coefficients_eq_choose
  refine ⟨?_, ?_, ?_, ?_, ?_⟩
  · unfold nCr
    rw [if_neg (by omega), if_neg (by omega), hB, Nat.choose_zero_right]
  · unfold nCr
    rw [if_neg (by omega), if_neg (by omega), hB, Nat.choose_self]
  · unfold nCr
    rw [if_neg (by omega), if_neg (by omega), if_neg (by omega), if_neg (by omega),
      hB, hB, (Nat.choose_symm hk).symm]
  · intro hk0 hkn
    unfold nCr
    refine ⟨by rw [if_neg (by omega), if_neg (by omega)],
      by rw [if_neg (by omega), if_neg (by omega)], ?_⟩
    rw [if_neg (by omega), if_neg (by omega), hB, hB, hB]
    obtain ⟨m, rfl⟩ : ∃ m, n = m + 1 := ⟨n - 1, by omega⟩
    obtain ⟨j, rfl⟩ : ∃ j, k = j + 1 := ⟨k - 1, by omega⟩
    simp only [Nat.add_sub_cancel]
    exact congrArg Except.ok (Nat.choose_succ_succ m j)
  · unfold nCr
    rw [if_pos (by omega)]

/-- Witness for C8 at `max_items = 5`, `n = 4`, `k = 2`, `r = 7`. -/
theorem c8_binomial_table_identities_witness :
    (4 ≤ 5 ∧ 2 ≤ 4 ∧ 4 < 7) ∧
    (nCr 5 4 0 = .ok 1 ∧
      nCr 5 4 4 = .ok 1 ∧
      nCr 5 4 2 = nCr 5 4 (4 - 2) ∧
      (0 < 2 → 2 < 4 →
        nCr 5 (4 - 1) (2 - 1) = .ok (binomial_coefficients (4 - 1) (2 - 1)) ∧
        nCr 5 (4 - 1) 2 = .ok (binomial_coefficients (4 - 1) 2) ∧
        nCr 5 4 2 =
          .ok (binomial_coefficients (4 - 1) (2 - 1) + binomial_coefficients (4 - 1) 2)) ∧
      nCr 5 4 7 = .error .valueError) :=
  ⟨⟨by decide, by decide, by decide⟩,
    c8_binomial_table_identities 5 4 2 7 (by decide) (by decide) (by decide)⟩

/-- C5: on a well-formed multiset (zero-count entries are absent, as in every
deck reachable from construction), `remove(card)` raises `KeyError` and
leaves the multiset unchanged when the type is absent (count 0), otherwise
decrements the exact type's count, deleting the entry when the count was 1;
removing a count-1 card twice fails on the second call with the multiset
unchanged by the failing call. -/
theorem c5_remove_decrement_and_double_removal (d : Deck) (c : UnoCard)
    (hwf : UnoDeck.WF d) :
    (UnoDeck.count d c = 0 → UnoDeck.remove d c = .error (.keyError, d)) ∧
    (∀ n, alistGet d c = some n →
      UnoDeck.remove d c = .ok (UnoDeck.decrEntry d c) ∧
      UnoDeck.count (UnoDeck.decrEntry d c) c + 1 = UnoDeck.count d c ∧
      (n = 1 → alistGet (UnoDeck.decrEntry d c) c = none)) ∧
    (UnoDeck.count d c = 1 →
      UnoDeck.remove d c = .ok (UnoDeck.decrEntry d c) ∧
      UnoDeck.remove (UnoDeck.decrEntry d c) c =
        .error (.keyError, UnoDeck.decrEntry d c)) := by
  refine ⟨?_, ?_, ?_⟩
  · intro h0
    exact UnoDeck.remove_err (UnoDeck.get_none_of_count_eq_zero hwf h0)
  · intro n hget
    obtain ⟨_, _, hcnt, _, hdel⟩ := UnoDeck.decrEntry_spec hwf hget
    exact ⟨UnoDeck.remove_ok hget, hcnt, hdel⟩
  · intro h1
    cases hget : alistGet d c with
    | none =>
      unfold UnoDeck.count at h1
      rw [hget] at h1
      simp at h1
    | some n =>
      have hn1 : n = 1 := by
        unfold UnoDeck.count at h1
        rw [hget] at h1
        simpa using h1
      obtain ⟨_, _, _, _, hdel⟩ := UnoDeck.decrEntry_spec hwf hget
      exact ⟨UnoDeck.remove_ok hget, UnoDeck.remove_err (hdel hn1)⟩

/-- Witness for C5 on the full deck and the RED 0 card, which has count 1. -/
theorem c5_remove_decrement_and_double_removal_witness :
    UnoDeck.count UnoDeck.initDeck { color := some .RED, number := some 0 } = 1 ∧
    (UnoDeck.remove UnoDeck.initDeck { color := some .RED, number := some 0 } =
      .ok (UnoDeck.decrEntry UnoDeck.initDeck { color := some .RED, number := some 0 }) ∧
     UnoDeck.remove
        (UnoDeck.decrEntry UnoDeck.initDeck { color := some .RED, number := some 0 })
        { color := some .RED, number := some 0 } =
      .error (.keyError,
        UnoDeck.decrEntry UnoDeck.initDeck { color := some .RED, number := some 0 })) :=
  ⟨by decide,
    (c5_remove_decrement_and_double_removal UnoDeck.initDeck
      { color := some .RED, number := some 0 } UnoDeck.initDeck_wf).2.2 (by decide)⟩

/-- C3 counterexample: the claim says `draw()` picks each type with
probability proportional to its remaining count.  On the freshly
constructed full deck the wildcard has 4 of the 108 physical cards
(4/108 = 1/27), but `random.choice` over the 54 distinct dict keys selects
it with probability 1/54. -/
theorem c3_counterexample_draw_not_weighted :
    UnoDeck.drawSelectProb UnoDeck.initDeck wildCard ≠
      (UnoDeck.count UnoDeck.initDeck wildCard : ℚ) /
        (UnoDeck.len UnoDeck.initDeck : ℚ) := by
  have h1 : UnoDeck.drawSelectCount UnoDeck.initDeck wildCard = 1 := by decide
  have h2 : UnoDeck.numKeys UnoDeck.initDeck = 54 := by decide
  have h3 : UnoDeck.count UnoDeck.initDeck wildCard = 4 := by decide
  have h4 : UnoDeck.len UnoDeck.initDeck = 108 := by decide
  unfold UnoDeck.drawSelectProb
  rw [h1, h2, h3, h4]
  norm_num

/-- C3 (amended): for every non-empty well-formed CardMultiset, `draw()`
selects uniformly among the *distinct remaining card types* (each present
type with probability `1/numKeys`, not weighted by its remaining count),
decrements the selected type's count (deleting the entry at zero), and
returns the drawn card; on an exhausted multiset `draw()` returns the
no-card result. -/
theorem c3_amended_draw_uniform_over_types (d : Deck) (c b : UnoCard) (j : Nat)
    (hwf : UnoDeck.WF d) (hne : d ≠ []) (hmem : c ∈ alistKeys d)
    (hb : b ≠ UnoDeck.drawnCard d j) :
    UnoDeck.drawSelectProb d c = 1 / (UnoDeck.numKeys d : ℚ) ∧
    UnoDeck.draw d j =
      (some (UnoDeck.drawnCard d j), UnoDeck.decrEntry d (UnoDeck.drawnCard d j)) ∧
    UnoDeck.drawnCard d j ∈ alistKeys d ∧
    UnoDeck.count (UnoDeck.decrEntry d (UnoDeck.drawnCard d j)) (UnoDeck.drawnCard d j) + 1 =
      UnoDeck.count d (UnoDeck.drawnCard d j) ∧
    UnoDeck.count (UnoDeck.decrEntry d (UnoDeck.drawnCard d j)) b = UnoDeck.count d b ∧
    UnoDeck.draw [] j = (none, []) := by
  have hmemd := UnoDeck.drawnCard_mem hne j
  obtain ⟨n, hget⟩ := alistGet_eq_some_of_mem_keys hmemd
  obtain ⟨_, _, hcnt, hother, _⟩ := UnoDeck.decrEntry_spec hwf hget
  refine ⟨?_, UnoDeck.draw_eq_of_ne_nil hne j, hmemd, hcnt, hother b hb, rfl⟩
  unfold UnoDeck.drawSelectProb
  rw [UnoDeck.drawSelectCount_eq_one hwf hmem]
  norm_num

/-- Witness for C3 (amended) on the full deck, the wildcard and index 0. -/
theorem c3_amended_draw_uniform_over_types_witness :
    UnoDeck.drawSelectProb UnoDeck.initDeck wildCard = 1 / (UnoDeck.numKeys UnoDeck.initDeck : ℚ) ∧
    UnoDeck.draw UnoDeck.initDeck 0 =
      (some (UnoDeck.drawnCard UnoDeck.initDeck 0),
        UnoDeck.decrEntry UnoDeck.initDeck (UnoDeck.drawnCard UnoDeck.initDeck 0)) ∧
    UnoDeck.drawnCard UnoDeck.initDeck 0 ∈ alistKeys UnoDeck.initDeck ∧
    UnoDeck.count (UnoDeck.decrEntry UnoDeck.initDeck (UnoDeck.drawnCard UnoDeck.initDeck 0))
        (UnoDeck.drawnCard UnoDeck.initDeck 0) + 1 =
      UnoDeck.count UnoDeck.initDeck (UnoDeck.drawnCard UnoDeck.initDeck 0) ∧
    UnoDeck.count (UnoDeck.decrEntry UnoDeck.initDeck (UnoDeck.drawnCard UnoDeck.initDeck 0))
        { color := some .RED, number := some 0 } =
      UnoDeck.count UnoDeck.initDeck { color := some .RED, number := some 0 } ∧
    UnoDeck.draw [] 0 = (none, []) :=
  c3_amended_draw_uniform_over_types UnoDeck.initDeck wildCard
    { color := some .RED, number := some 0 } 0 UnoDeck.initDeck_wf (by decide)
    (by decide) (by decide)

/-! ## Tracker lemmas -/

theorem initDeck_len : UnoDeck.len UnoDeck.initDeck = 108 := by decide

namespace UnoDeck

theorem remove_ok_cases {d d2 : Deck} {c : UnoCard} (h : remove d c = .ok d2) :
    ∃ n, alistGet d c = some n ∧ d2 = decrEntry d c := by
  unfold remove at h
  cases hget : alistGet d c with
  | none => rw [hget] at h; simp at h
  | some n =>
    rw [hget] at h
    exact ⟨n, rfl, (Except.ok.inj h).symm⟩

theorem remove_error_cases {d : Deck} {c : UnoCard} {p : PyError × Deck}
    (h : remove d c = .error p) : alistGet d c = none ∧ p = (.keyError, d) := by
  unfold remove at h
  cases hget : alistGet d c with
  | none =>
    rw [hget] at h
    exact ⟨rfl, (Except.error.inj h).symm⟩
  | some n => rw [hget] at h; simp at h

end UnoDeck

theorem counterTotal_counterInc {α : Type} [DecidableEq α] (m : List (α × Nat)) (a : α) :
    counterTotal (counterInc m a) = counterTotal m + 1 := by
  unfold counterInc counterGet counterTotal
  cases hget : alistGet m a with
  | none =>
    simp only [Option.getD_none]
    rw [alistSum_set_none hget]
  | some w =>
    simp only [Option.getD_some]
    have h := alistSum_set_some (v := w + 1) hget
    omega

namespace GameStateTracker

theorem see_card_ok_cases {t t2 : GameStateTracker} {c : UnoCard}
    (h : see_card t c = .ok t2) :
    ∃ n, alistGet t.unseen_cards c = some n ∧
      t2 = { t with unseen_cards := UnoDeck.decrEntry t.unseen_cards c,
                    seen_counter := t.seen_counter.count c } := by
  unfold see_card at h
  cases hrem : UnoDeck.remove t.unseen_cards c with
  | error p =>
    obtain ⟨e, d⟩ := p
    rw [hrem] at h
    simp at h
  | ok d =>
    rw [hrem] at h
    obtain ⟨n, hget, hd⟩ := UnoDeck.remove_ok_cases hrem
    refine ⟨n, hget, ?_⟩
    rw [← Except.ok.inj h, hd]

theorem see_card_error_cases {t : GameStateTracker} {c : UnoCard}
    {p : PyError × GameStateTracker} (h : see_card t c = .error p) :
    alistGet t.unseen_cards c = none ∧ p = (.keyError, t) := by
  unfold see_card at h
  cases hrem : UnoDeck.remove t.unseen_cards c with
  | error q =>
    obtain ⟨e, d⟩ := q
    rw [hrem] at h
    obtain ⟨hget, hq⟩ := UnoDeck.remove_error_cases hrem
    obtain ⟨he, _⟩ := Prod.mk.inj hq
    refine ⟨hget, ?_⟩
    rw [← Except.error.inj h, he]
  | ok d => rw [hrem] at h; simp at h

theorem see_card_inv {t t2 : GameStateTracker} {c : UnoCard} (hInv : Inv t)
    (h : see_card t c = .ok t2) : Inv t2 := by
  obtain ⟨n, hget, rfl⟩ := see_card_ok_cases h
  obtain ⟨hwf2, hlen, _, _, _⟩ := UnoDeck.decrEntry_spec hInv.1 hget
  refine ⟨hwf2, ?_, hInv.2.2⟩
  show counterTotal (counterInc t.seen_counter.total_counts c) +
    UnoDeck.len (UnoDeck.decrEntry t.unseen_cards c) = t.ORIGINAL_CARD_COUNT
  rw [counterTotal_counterInc]
  have := hInv.2.1
  omega

theorem ev_player_drew_inv :
    ∀ (cs : List UnoCard) (t t2 : GameStateTracker), Inv t →
      ev_player_drew t cs = .ok t2 → Inv t2 := by
  intro cs
  induction cs with
  | nil =>
    intro t t2 hInv h
    unfold ev_player_drew at h
    rw [← Except.ok.inj h]
    exact hInv
  | cons c cs ih =>
    intro t t2 hInv h
    unfold ev_player_drew at h
    cases hsee : see_card t c with
    | error p => rw [hsee] at h; simp at h
    | ok t3 =>
      rw [hsee] at h
      dsimp only at h
      have hInv3 : Inv t3 := see_card_inv hInv hsee
      exact ih { t3 with player_hand := t3.player_hand ++ [c] } t2 hInv3 h

theorem step_inv {t t2 : GameStateTracker} {e : Event} (hInv : Inv t)
    (h : step t e = .ok t2) : Inv t2 := by
  cases e with
  | initialPlay c => exact see_card_inv hInv h
  | playerDrew cs => exact ev_player_drew_inv cs t t2 hInv h
  | playerPlayed c => exact see_card_inv hInv h
  | otherPlayerPlayed p oc =>
    have h2 : ev_other_player_played t p oc = .ok t2 := h
    cases oc with
    | some c =>
      unfold ev_other_player_played at h2
      dsimp only at h2
      cases hsee : see_card t c with
      | error q => rw [hsee] at h2; simp at h2
      | ok t3 =>
        rw [hsee] at h2
        dsimp only at h2
        have hInv3 := see_card_inv hInv hsee
        cases hk : t3.other_players_card_counts.get? p with
        | none => rw [hk] at h2; simp at h2
        | some k =>
          rw [hk] at h2
          dsimp only at h2
          by_cases hneg : k - 1 < 0
          · rw [if_pos hneg] at h2; simp at h2
          · rw [if_neg hneg] at h2
            rw [← Except.ok.inj h2]
            exact hInv3
    | none =>
      unfold ev_other_player_played at h2
      dsimp only at h2
      by_cases hlt : p < t.unfulfilled_requirements_monitor.length
      · rw [if_pos hlt] at h2
        rw [← Except.ok.inj h2]
        exact hInv
      · rw [if_neg hlt] at h2; simp at h2
  | otherPlayerDrew p n =>
    have h2 : ev_other_player_drew t p n = .ok t2 := h
    unfold ev_other_player_drew at h2
    by_cases hn : n ≤ 0
    · rw [if_pos hn] at h2; simp at h2
    · rw [if_neg hn] at h2
      cases hk : t.other_players_card_counts.get? p with
      | none => rw [hk] at h2; simp at h2
      | some k =>
        rw [hk] at h2
        rw [← Except.ok.inj h2]
        exact hInv

theorem runEvents_inv :
    ∀ (evs : List Event) (t t2 : GameStateTracker), Inv t →
      runEvents evs t = .ok t2 → Inv t2 := by
  intro evs
  induction evs with
  | nil =>
    intro t t2 hInv h
    unfold runEvents at h
    rw [← Except.ok.inj h]
    exact hInv
  | cons e es ih =>
    intro t t2 hInv h
    unfold runEvents at h
    cases hstep : step t e with
    | error p => rw [hstep] at h; simp at h
    | ok t3 =>
      rw [hstep] at h
      exact ih _ _ (step_inv hInv hstep) h

theorem seeAll_inv :
    ∀ (cs : List UnoCard) (t t2 : GameStateTracker), Inv t →
      seeAll t cs = .ok t2 → Inv t2 := by
  intro cs
  induction cs with
  | nil =>
    intro t t2 hInv h
    unfold seeAll at h
    rw [← Except.ok.inj h]
    exact hInv
  | cons c cs ih =>
    intro t t2 hInv h
    unfold seeAll at h
    cases hsee : see_card t c with
    | error p => rw [hsee] at h; simp at h
    | ok t3 =>
      rw [hsee] at h
      exact ih _ _ (see_card_inv hInv hsee) h

theorem initState_inv (hand : List UnoCard) (counts : List Int) :
    Inv (initState hand counts) :=
  ⟨UnoDeck.initDeck_wf, rfl, initDeck_len⟩

theorem init_ok_inv {hand : List UnoCard} {counts : List Int} {t : GameStateTracker}
    (h : init hand counts = .ok t) : Inv t := by
  unfold init at h
  cases hsee : seeAll (initState hand counts) hand with
  | error p =>
    obtain ⟨e, d⟩ := p
    rw [hsee] at h
    simp at h
  | ok t2 =>
    rw [hsee] at h
    rw [← Except.ok.inj h]
    exact seeAll_inv hand _ t2 (initState_inv hand counts) hsee

theorem init_monitor {hand : List UnoCard} {counts : List Int} {t : GameStateTracker}
    (h : init hand counts = .ok t) :
    t.unfulfilled_requirements_monitor = counts.map (fun _ => none) := by
  unfold init at h
  cases hsee : seeAll (initState hand counts) hand with
  | error p =>
    obtain ⟨e, d⟩ := p
    rw [hsee] at h
    simp at h
  | ok t2 =>
    rw [hsee] at h
    rw [← Except.ok.inj h]

theorem reachable_inv {t : GameStateTracker} (h : Reachable t) : Inv t := by
  obtain ⟨hand, counts, t0, evs, hinit, hrun⟩ := h
  exact runEvents_inv evs t0 t (init_ok_inv hinit) hrun

theorem see_card_monitor {t t2 : GameStateTracker} {c : UnoCard}
    (h : see_card t c = .ok t2) :
    t2.unfulfilled_requirements_monitor = t.unfulfilled_requirements_monitor := by
  obtain ⟨n, _, rfl⟩ := see_card_ok_cases h
  rfl

theorem monitorAllNone_set_none {t : GameStateTracker} (h : monitorAllNone t) (p : Nat) :
    (t.unfulfilled_requirements_monitor.set p none).all Option.isNone = true := by
  unfold monitorAllNone at h
  rw [List.all_eq_true] at h ⊢
  intro x hx
  rcases List.mem_or_eq_of_mem_set hx with hx | hx
  · exact h x hx
  · rw [hx]; rfl

theorem ev_player_drew_monitor :
    ∀ (cs : List UnoCard) (t : GameStateTracker), monitorAllNone t →
      monitorAllNone (resultState (ev_player_drew t cs)) := by
  intro cs
  induction cs with
  | nil => intro t h; exact h
  | cons c cs ih =>
    intro t h
    unfold ev_player_drew
    cases hsee : see_card t c with
    | error p =>
      obtain ⟨_, hp⟩ := see_card_error_cases hsee
      show monitorAllNone p.2
      rw [hp]
      exact h
    | ok t2 =>
      have hmon2 : monitorAllNone { t2 with player_hand := t2.player_hand ++ [c] } := by
        show t2.unfulfilled_requirements_monitor.all Option.isNone = true
        rw [see_card_monitor hsee]
        exact h
      exact ih { t2 with player_hand := t2.player_hand ++ [c] } hmon2

theorem step_monitor {t : GameStateTracker} (e : Event) (h : monitorAllNone t) :
    monitorAllNone (resultState (step t e)) := by
  cases e with
  | initialPlay c =>
    show monitorAllNone (resultState (see_card t c))
    cases hsee : see_card t c with
    | error p =>
      obtain ⟨_, hp⟩ := see_card_error_cases hsee
      show monitorAllNone p.2
      rw [hp]
      exact h
    | ok t2 =>
      show monitorAllNone t2
      unfold monitorAllNone
      rw [see_card_monitor hsee]
      exact h
  | playerDrew cs => exact ev_player_drew_monitor cs t h
  | playerPlayed c =>
    show monitorAllNone (resultState (see_card t c))
    cases hsee : see_card t c with
    | error p =>
      obtain ⟨_, hp⟩ := see_card_error_cases hsee
      show monitorAllNone p.2
      rw [hp]
      exact h
    | ok t2 =>
      show monitorAllNone t2
      unfold monitorAllNone
      rw [see_card_monitor hsee]
      exact h
  | otherPlayerPlayed p oc =>
    show monitorAllNone (resultState (ev_other_player_played t p oc))
    cases oc with
    | some c =>
      unfold ev_other_player_played
      dsimp only
      cases hsee : see_card t c with
      | error q =>
        obtain ⟨_, hq⟩ := see_card_error_cases hsee
        show monitorAllNone q.2
        rw [hq]
        exact h
      | ok t2 =>
        have hmon2 : monitorAllNone t2 := by
          unfold monitorAllNone
          rw [see_card_monitor hsee]
          exact h
        dsimp only
        cases hk : t2.other_players_card_counts.get? p with
        | none => exact hmon2
        | some k =>
          dsimp only
          by_cases hneg : k - 1 < 0
          · rw [if_pos hneg]
            exact hmon2
          · rw [if_neg hneg]
            exact hmon2
    | none =>
      unfold ev_other_player_played
      dsimp only
      by_cases hlt : p < t.unfulfilled_requirements_monitor.length
      · rw [if_pos hlt]
        exact monitorAllNone_set_none h p
      · rw [if_neg hlt]
        exact h
  | otherPlayerDrew p n =>
    show monitorAllNone (resultState (ev_other_player_drew t p n))
    unfold ev_other_player_drew
    by_cases hn : n ≤ 0
    · rw [if_pos hn]
      exact h
    · rw [if_neg hn]
      cases hk : t.other_players_card_counts.get? p with
      | none => exact h
      | some k => exact h

theorem runEvents_monitor :
    ∀ (evs : List Event) (t : GameStateTracker), monitorAllNone t →
      monitorAllNone (resultState (runEvents evs t)) := by
  intro evs
  induction evs with
  | nil => intro t h; exact h
  | cons e es ih =>
    intro t h
    have hstep := step_monitor e h
    unfold runEvents
    cases hs : step t e with
    | ok t2 =>
      rw [hs] at hstep
      exact ih t2 hstep
    | error p =>
      rw [hs] at hstep
      exact hstep

end GameStateTracker

/-! ## Claims about GameStateTracker events -/

/-- C1: for every GameStateTracker constructed from a hand dealt out of the
full 108-card composition (a succeeding constructor call), and for every
sequence of non-raising event-method calls, the seen index's exact-card
total plus the unseen pool size equals the recorded originalTotal, 108 —
after construction (`evs = []`) and after every call (every prefix is
itself a sequence). -/
theorem c1_partition_invariant (hand : List UnoCard) (counts : List Int)
    (t0 t : GameStateTracker) (evs : List GameStateTracker.Event)
    (hinit : GameStateTracker.init hand counts = .ok t0)
    (hrun : GameStateTracker.runEvents evs t0 = .ok t) :
    (counterTotal t0.seen_counter.total_counts + UnoDeck.len t0.unseen_cards =
        t0.ORIGINAL_CARD_COUNT ∧ t0.ORIGINAL_CARD_COUNT = 108) ∧
    (counterTotal t.seen_counter.total_counts + UnoDeck.len t.unseen_cards =
        t.ORIGINAL_CARD_COUNT ∧ t.ORIGINAL_CARD_COUNT = 108) := by
  have h0 := GameStateTracker.init_ok_inv hinit
  have h1 := GameStateTracker.runEvents_inv evs t0 t h0 hrun
  exact ⟨⟨h0.2.1, h0.2.2⟩, ⟨h1.2.1, h1.2.2⟩⟩

/-- Witness for C1: the empty hand, no opponents, no events. -/
theorem c1_partition_invariant_witness :
    (counterTotal tEmpty.seen_counter.total_counts + UnoDeck.len tEmpty.unseen_cards =
        tEmpty.ORIGINAL_CARD_COUNT ∧ tEmpty.ORIGINAL_CARD_COUNT = 108) ∧
    (counterTotal tEmpty.seen_counter.total_counts + UnoDeck.len tEmpty.unseen_cards =
        tEmpty.ORIGINAL_CARD_COUNT ∧ tEmpty.ORIGINAL_CARD_COUNT = 108) :=
  c1_partition_invariant [] [] tEmpty tEmpty [] rfl rfl

/-- C9: in every state reachable from the public constructor through the
event methods (including states left behind by a raising call), every
per-opponent last-unfulfilled-requirement slot is `None`: the only write,
`ev_other_player_played` with an absent card, stores that absent value
itself. -/
theorem c9_requirement_slots_always_none (hand : List UnoCard) (counts : List Int)
    (t0 : GameStateTracker) (evs : List GameStateTracker.Event)
    (hinit : GameStateTracker.init hand counts = .ok t0) :
    GameStateTracker.monitorAllNone
      (GameStateTracker.resultState (GameStateTracker.runEvents evs t0)) := by
  apply GameStateTracker.runEvents_monitor
  unfold GameStateTracker.monitorAllNone
  rw [GameStateTracker.init_monitor hinit]
  rw [List.all_eq_true]
  intro x hx
  obtain ⟨y, _, hy⟩ := List.mem_map.1 hx
  rw [← hy]
  rfl

/-- Witness for C9: one opponent, who fails to answer a requirement. -/
theorem c9_requirement_slots_always_none_witness :
    GameStateTracker.monitorAllNone
      (GameStateTracker.resultState
        (GameStateTracker.runEvents [.otherPlayerPlayed 0 none] tOne)) :=
  c9_requirement_slots_always_none [] [7] tOne [.otherPlayerPlayed 0 none] rfl

/-- C6: every event method reaches the observe primitive `see_card`
(`ev_initial_play` and `ev_player_played` are it verbatim), which removes
from the unseen pool strictly before counting; for a card not present in
the unseen pool every such call fails with `KeyError` carrying the
completely unmodified tracker — neither pool, seen index, hand nor
opponent counts are touched — rather than silently no-op'ing. -/
theorem c6_observe_fails_atomically (t : GameStateTracker) (c : UnoCard) (p : Nat)
    (hwf : UnoDeck.WF t.unseen_cards) (h0 : UnoDeck.count t.unseen_cards c = 0) :
    GameStateTracker.ev_initial_play t c = GameStateTracker.see_card t c ∧
    GameStateTracker.ev_player_played t c = GameStateTracker.see_card t c ∧
    GameStateTracker.see_card t c = .error (.keyError, t) ∧
    GameStateTracker.ev_player_drew t [c] = .error (.keyError, t) ∧
    GameStateTracker.ev_other_player_played t p (some c) = .error (.keyError, t) := by
  have hget := UnoDeck.get_none_of_count_eq_zero hwf h0
  have hsee : GameStateTracker.see_card t c = .error (.keyError, t) := by
    unfold GameStateTracker.see_card
    rw [UnoDeck.remove_err hget]
  refine ⟨rfl, rfl, hsee, ?_, ?_⟩
  · unfold GameStateTracker.ev_player_drew
    rw [hsee]
  · unfold GameStateTracker.ev_other_player_played
    dsimp only
    rw [hsee]

/-- Witness for C6: the freshly constructed tracker and a card type that is
not part of the composition (a bare 5 with no color). -/
theorem c6_observe_fails_atomically_witness :
    GameStateTracker.ev_initial_play tEmpty { number := some 5 } =
      GameStateTracker.see_card tEmpty { number := some 5 } ∧
    GameStateTracker.ev_player_played tEmpty { number := some 5 } =
      GameStateTracker.see_card tEmpty { number := some 5 } ∧
    GameStateTracker.see_card tEmpty { number := some 5 } = .error (.keyError, tEmpty) ∧
    GameStateTracker.ev_player_drew tEmpty [{ number := some 5 }] =
      .error (.keyError, tEmpty) ∧
    GameStateTracker.ev_other_player_played tEmpty 0 (some { number := some 5 }) =
      .error (.keyError, tEmpty) :=
  c6_observe_fails_atomically tEmpty { number := some 5 } 0
    UnoDeck.initDeck_wf (by decide)

/-! ## Claims about card_requirement_probability -/

/-- C10: `requirementProbability` is not total over its advertised domain:
for every tracker state and every card whose color is absent but whose
number is present the query raises an unhandled exception instead of
returning a float — on the path that reaches the division it is the
`UnboundLocalError` for `player_hand_universe`, which is only assigned
inside the color branch. -/
theorem c10_color_absent_number_present_raises (t : GameStateTracker)
    (card : UnoCard) (i : Nat) (n : Nat) (hc : card.color = none)
    (hn : card.number = some n) :
    ∃ e, GameStateTracker.card_requirement_probability t card i = .error e := by
  unfold GameStateTracker.card_requirement_probability
  by_cases hass : counterTotal t.seen_counter.total_counts + UnoDeck.len t.unseen_cards ≠
      t.ORIGINAL_CARD_COUNT
  · rw [if_pos hass]
    exact ⟨.assertionError, rfl⟩
  · rw [if_neg hass]
    have hcs : GameStateTracker.colorStep t card i = .ok (0, none) := by
      unfold GameStateTracker.colorStep
      rw [hc]
    rw [hcs]
    dsimp only
    rw [if_neg (by norm_num)]
    have hns : ∃ e, GameStateTracker.numberStep t card i none = .error e := by
      unfold GameStateTracker.numberStep
      rw [hn]
      dsimp only
      cases hk : GameStateTracker.getHandCount t i with
      | error e => exact ⟨e, rfl⟩
      | ok k =>
        dsimp only
        cases hcr : nCr t.ORIGINAL_CARD_COUNT
            (UnoDeck.len t.unseen_cards -
              ((if n ≠ 0 then UnoDeck.PER_NONZERO_COUNT else UnoDeck.PER_ZERO_COUNT) -
                counterGet t.seen_counter.number_counts n)) k with
        | error e => exact ⟨e, rfl⟩
        | ok w => exact ⟨.unboundLocalError, rfl⟩
    obtain ⟨e, he⟩ := hns
    rw [he]
    exact ⟨e, rfl⟩

/-- Witness for C10: the freshly constructed 3-opponent tracker (opponent
index 0 with hand size 0, so the table lookup succeeds) and a bare 5. -/
theorem c10_color_absent_number_present_raises_witness :
    ∃ e, GameStateTracker.card_requirement_probability tZero { number := some 5 } 0 =
      .error e :=
  c10_color_absent_number_present_raises tZero { number := some 5 } 0 5 rfl rfl

/-- C2 counterexample: the claim says a wildcard query returns 0.  On the
freshly constructed tracker with three 7-card opponents the wildcard query
returns 2: each skipped branch leaves its without-attribute fraction at 0,
so each term contributes 1 - 0 = 1 to the sum, not 0. -/
theorem c2_counterexample_wildcard_returns_two :
    GameStateTracker.card_requirement_probability tThree wildCard 0 = .ok 2 ∧
    (Except.ok (2 : ℚ) : Except PyError ℚ) ≠ .ok 0 := by
  constructor
  · unfold GameStateTracker.card_requirement_probability
    rw [if_neg (not_not_intro (by decide))]
    have hcs : GameStateTracker.colorStep tThree wildCard 0 = .ok (0, none) := rfl
    rw [hcs]
    dsimp only
    rw [if_neg (by norm_num)]
    have hns : GameStateTracker.numberStep tThree wildCard 0 none = .ok 0 := rfl
    rw [hns]
    dsimp only
    rw [if_neg (by norm_num)]
    have h2 : (1 : ℚ) - 0 + (1 - 0) = 2 := by norm_num
    rw [h2]
  · intro h
    exact absurd (Except.ok.inj h) (by norm_num)

/-- The color branch on the 0-card-opponent tracker for a RED action card:
`nCr(108,0)/nCr(83,0)` lookups both give 1, so the without-color fraction
is 1 with `player_hand_universe` bound to 1.  Used by the C2 witness to
exercise the color-present, number-absent case. -/
theorem colorStep_redSkip_tZero :
    GameStateTracker.colorStep tZero { color := some .RED, action := some .SKIP } 0 =
      .ok (1, some 1) := by
  unfold GameStateTracker.colorStep
  dsimp only
  rw [show GameStateTracker.getHandCount tZero 0 = .ok 0 from by decide]
  dsimp only
  rw [show nCr tZero.ORIGINAL_CARD_COUNT (UnoDeck.len tZero.unseen_cards) 0 = .ok 1 from
    by decide]
  dsimp only
  rw [show nCr tZero.ORIGINAL_CARD_COUNT
      (UnoDeck.len tZero.unseen_cards -
        (UnoDeck.PER_COLOR_COUNT - counterGet tZero.seen_counter.color_counts CardColor.RED))
      0 = .ok 1 from by decide]
  dsimp only
  rw [if_neg (by norm_num)]
  norm_num

/-- C2 (amended): a skipped branch leaves its *fraction* at exactly 0 (the
color branch additionally leaves `player_hand_universe` unbound), and the
corresponding term of the returned estimate is `1 - 0 = 1`, not 0: for
every card whose color is absent the color branch yields fraction 0 with no
universe; for every card whose number is absent the number branch yields
fraction 0; a number-absent card whose color branch succeeds with a
fraction `cf` passing the range assert returns `(1 - cf) + 1`; and a
wildcard (both attributes absent) returns exactly 2, not 0, whenever the
partition-invariant assertion passes. -/
theorem c2_amended_skipped_terms_contribute_one (t : GameStateTracker)
    (card : UnoCard) (i : Nat) (cf : ℚ) (u : Option Nat)
    (hsum : counterTotal t.seen_counter.total_counts + UnoDeck.len t.unseen_cards =
      t.ORIGINAL_CARD_COUNT) :
    (card.color = none → GameStateTracker.colorStep t card i = .ok (0, none)) ∧
    (card.number = none → GameStateTracker.numberStep t card i u = .ok 0) ∧
    (card.number = none → GameStateTracker.colorStep t card i = .ok (cf, u) →
      0 ≤ cf → cf ≤ 1 →
      GameStateTracker.card_requirement_probability t card i = .ok ((1 - cf) + 1)) ∧
    (card.color = none → card.number = none →
      GameStateTracker.card_requirement_probability t card i = .ok 2) := by
  refine ⟨?_, ?_, ?_, ?_⟩
  · intro hc
    unfold GameStateTracker.colorStep
    rw [hc]
  · intro hn
    unfold GameStateTracker.numberStep
    rw [hn]
  · intro hn hcs hcf0 hcf1
    unfold GameStateTracker.card_requirement_probability
    rw [if_neg (not_not_intro hsum)]
    rw [hcs]
    dsimp only
    rw [if_neg (not_not_intro ⟨hcf0, hcf1⟩)]
    have hns : GameStateTracker.numberStep t card i u = .ok 0 := by
      unfold GameStateTracker.numberStep
      rw [hn]
    rw [hns]
    dsimp only
    rw [if_neg (by norm_num)]
    have h1 : (1 : ℚ) - 0 = 1 := by norm_num
    rw [h1]
  · intro hc hn
    unfold GameStateTracker.card_requirement_probability
    rw [if_neg (not_not_intro hsum)]
    have hcs : GameStateTracker.colorStep t card i = .ok (0, none) := by
      unfold GameStateTracker.colorStep
      rw [hc]
    rw [hcs]
    dsimp only
    rw [if_neg (by norm_num)]
    have hns : GameStateTracker.numberStep t card i none = .ok 0 := by
      unfold GameStateTracker.numberStep
      rw [hn]
    rw [hns]
    dsimp only
    rw [if_neg (by norm_num)]
    have h2 : (1 : ℚ) - 0 + (1 - 0) = 2 := by norm_num
    rw [h2]

/-- Witness for C2 (amended): the wildcard on the fresh 3-opponent tracker
returns 2, and a color-present, number-absent card (RED SKIP, with a
0-card opponent so the table lookups are small) returns `(1 - 1) + 1` —
its skipped number term contributing exactly 1. -/
theorem c2_amended_skipped_terms_contribute_one_witness :
    GameStateTracker.card_requirement_probability tThree wildCard 0 = .ok 2 ∧
    GameStateTracker.card_requirement_probability tZero
      { color := some .RED, action := some .SKIP } 0 = .ok ((1 - 1) + 1) :=
  ⟨(c2_amended_skipped_terms_contribute_one tThree wildCard 0 0 none (by decide)).2.2.2
      rfl rfl,
   (c2_amended_skipped_terms_contribute_one tZero
      { color := some .RED, action := some .SKIP } 0 1 (some 1) (by decide)).2.2.1
      rfl colorStep_redSkip_tZero (by norm_num) (by norm_num)⟩

/-- C4: in every reachable tracker state, for a candidate card with both a
color and a number such that every unseen card shares neither (the seen
color count is the full 25 and the seen number count is the number's full
population, 4 for 0 and 8 for 1..9), `requirementProbability` returns
exactly 0 for every opponent whose hand size is at most the unseen-pool
size: both complement fractions are `nCr(N,k)/nCr(N,k) = 1`, so both match
terms vanish. -/
theorem c4_exhausted_color_probability_zero (t : GameStateTracker)
    (hreach : GameStateTracker.Reachable t)
    (col : CardColor) (num : Nat) (act : Option CardAction) (i : Nat) (k : Int)
    (hcol : counterGet t.seen_counter.color_counts col = 25)
    (hnum : counterGet t.seen_counter.number_counts num = (if num = 0 then 4 else 8))
    (hk : t.other_players_card_counts.get? i = some k)
    (hk0 : 0 ≤ k)
    (hkN : k.toNat ≤ UnoDeck.len t.unseen_cards) :
    GameStateTracker.card_requirement_probability t
      { color := some col, number := some num, action := act } i = .ok 0 := by
  have hInv := GameStateTracker.reachable_inv hreach
  have hsum := hInv.2.1
  have hBpos : 0 < binomial_coefficients (UnoDeck.len t.unseen_cards) k.toNat := by
    rw [binomial_coefficients_eq_choose]
    exact Nat.choose_pos hkN
  have hBne : ((binomial_coefficients (UnoDeck.len t.unseen_cards) k.toNat : Nat) : ℚ) ≠ 0 :=
    Nat.cast_ne_zero.mpr (by omega)
  have hnCr : nCr t.ORIGINAL_CARD_COUNT (UnoDeck.len t.unseen_cards) k.toNat =
      .ok (binomial_coefficients (UnoDeck.len t.unseen_cards) k.toNat) := by
    unfold nCr
    rw [if_neg (by omega), if_neg (by omega)]
  have hgc : GameStateTracker.getHandCount t i = .ok k.toNat := by
    unfold GameStateTracker.getHandCount
    rw [hk]
    dsimp only
    rw [if_neg (by omega)]
  have hcs : GameStateTracker.colorStep t
      { color := some col, number := some num, action := act } i =
      .ok (1, some (binomial_coefficients (UnoDeck.len t.unseen_cards) k.toNat)) := by
    unfold GameStateTracker.colorStep
    dsimp only
    rw [hcol]
    simp only [show UnoDeck.PER_COLOR_COUNT = 25 from rfl, Nat.sub_self, Nat.sub_zero]
    rw [hgc]
    dsimp only
    rw [hnCr]
    dsimp only
    rw [if_neg (by omega)]
    rw [div_self hBne]
  have hns : GameStateTracker.numberStep t
      { color := some col, number := some num, action := act } i
      (some (binomial_coefficients (UnoDeck.len t.unseen_cards) k.toNat)) = .ok 1 := by
    unfold GameStateTracker.numberStep
    dsimp only
    rw [hnum]
    have hrem : (if num ≠ 0 then UnoDeck.PER_NONZERO_COUNT else UnoDeck.PER_ZERO_COUNT) -
        (if num = 0 then 4 else 8) = 0 := by
      by_cases h0 : num = 0
      · simp [h0, show UnoDeck.PER_ZERO_COUNT = 4 from rfl]
      · simp [h0, show UnoDeck.PER_NONZERO_COUNT = 8 from rfl]
    rw [hrem, Nat.sub_zero]
    rw [hgc]
    dsimp only
    rw [hnCr]
    dsimp only
    rw [if_neg (by omega)]
    rw [div_self hBne]
  unfold GameStateTracker.card_requirement_probability
  rw [if_neg (not_not_intro hsum)]
  rw [hcs]
  dsimp only
  rw [if_neg (by norm_num)]
  rw [hns]
  dsimp only
  rw [if_neg (by norm_num)]
  have h2 : (1 : ℚ) - 1 + (1 - 1) = 0 := by norm_num
  rw [h2]

/-- Witness for C4: the tracker whose hand is all 25 RED cards plus the six
other 5s, one opponent holding 7 of the remaining 77 cards, candidate play
RED 5. -/
theorem c4_exhausted_color_probability_zero_witness :
    GameStateTracker.card_requirement_probability c4Tracker
      { color := some .RED, number := some 5, action := none } 0 = .ok 0 :=
  c4_exhausted_color_probability_zero c4Tracker
    ⟨c4Hand, [7], c4Tracker, [], rfl, rfl⟩ .RED 5 none 0 7
    (by decide) (by decide) (by decide) (by decide) (by decide)

end UkNOw
